import Mathlib

/-!
Verification of the data-access layer of honai/covid-19-api
(`src/database.py`).  The MongoDB collection is modelled as a list of
stored pages (one document `{'page': ...}` per list entry, in insertion
order); `find_one` returns the first entry matching the filter, and
`update_one` updates the first matching entry.  Python dictionaries are
modelled as association lists in insertion order.  Classifier scores
(Python floats compared with thresholds) are modelled as rationals.
Static data from the repository's `constants.py` (topic/country taxonomy
maps and numeric thresholds, which the spec treats as configuration) is
a parameter of every operation, bundled in the `Constants` structure.
-/

namespace DB

/-! ### Python string primitives

Stored text is Lean `String`; the operations the source uses
(`str.strip`, lexicographic `<` on `str`, truthiness of `str`) are given
explicit, executable definitions on the underlying character lists so
that every stored record can be computed on concrete inputs. -/

/-- Characters remaining after removing leading and trailing whitespace,
as Python's `str.strip()` does. -/
def pyStripList (l : List Char) : List Char :=
  ((l.dropWhile Char.isWhitespace).reverse.dropWhile Char.isWhitespace).reverse

/-- Python `s.strip()`. -/
def pyStrip (s : String) : String := ⟨pyStripList s.data⟩

/-- Lexicographic strict order on character lists by code point, as
Python compares `str` values. -/
def lexLt : List Char → List Char → Bool
  | [], [] => false
  | [], _ :: _ => true
  | _ :: _, [] => false
  | a :: as, b :: bs => if a < b then true else if b < a then false else lexLt as bs

/-- Python `a < b` on strings. -/
def pyLt (a b : String) : Bool := lexLt a.data b.data

/-- Python `a <= b` on strings (total order, so `¬ (b < a)`). -/
def pyLe (a b : String) : Bool := !(pyLt b a)

/-- Python `datetime.fromisoformat(ts).date().isoformat()`: for a valid
ISO-8601 timestamp this is its first ten characters `YYYY-MM-DD`. -/
def simple_timestamp_of (ts : String) : String := ⟨ts.data.take 10⟩

/-! ### Association lists (Python dictionaries) -/

/-- Python `d.get(k)` / `k in d` on a dictionary represented as an
association list in insertion order: the first binding of the key. -/
def alookup {κ β : Type} [DecidableEq κ] : List (κ × β) → κ → Option β
  | [], _ => none
  | kv :: rest, k => if kv.1 = k then some kv.2 else alookup rest k

/-- Python `d[k]` on a score dictionary.  The source indexes directly
(`document['classes_bert']['is_useful']`), which presupposes the key is
present; an absent key is given the default `0`. -/
def dget (d : List (String × ℚ)) (k : String) : ℚ := (alookup d k).getD 0

/-- Python dictionary assignment `d[k] = v`: replaces the value in place
if the key is bound, otherwise appends the new binding. -/
def dictUpsert {β : Type} : List (String × β) → String → β → List (String × β)
  | [], k, v => [(k, v)]
  | kv :: rest, k, v =>
    if kv.1 = k then (k, v) :: rest else kv :: dictUpsert rest k v

/-- A Python dict comprehension over a list of key-value pairs: later
bindings of a key overwrite the value but keep the original position. -/
def dictOfList {β : Type} (l : List (String × β)) : List (String × β) :=
  l.foldl (fun d kv => dictUpsert d kv.1 kv.2) []

/-! ### Stable sort

Python's `sorted` is a stable sort; `sorted(l, key=..., reverse=True)`
keeps the original relative order of elements whose keys are equal.
`insertStable le x l` places `x` before the first element `y` of `l`
with `le x y`, which is stable when `le x y` means "`x` may come before
`y`". -/

def insertStable {α : Type} (le : α → α → Bool) (x : α) : List α → List α
  | [] => [x]
  | y :: ys => if le x y then x :: y :: ys else y :: insertStable le x ys

/-- Stable insertion sort with respect to the boolean relation `le`. -/
def stableSort {α : Type} (le : α → α → Bool) (l : List α) : List α :=
  l.foldr (insertStable le) []

/-! ### Rational literals

`0.5` is exactly representable; it is built with the `Rat` constructor
(numerator 1, denominator 2) so that concrete computations reduce. -/

/-- The score threshold literal `0.5` from `upsert_page`. -/
def half : ℚ := ⟨1, 2, by decide, Nat.coprime_one_left 2⟩

theorem half_eq : half = 1 / 2 := by
  rw [half, Rat.mk'_eq_divInt, Rat.divInt_eq_div]; norm_num

/-! ### Data model -/

/-- A `title`/`timestamp` pair, as in the input document's `orig`,
`ja_translated` and `en_translated` fields. -/
structure Translated where
  title : String
  timestamp : String
  deriving DecidableEq

/-- The stored `orig` object: the input pair plus the derived
`simple_timestamp`. -/
structure OrigStored where
  title : String
  timestamp : String
  simple_timestamp : String
  deriving DecidableEq

/-- The input document's `classes` object. -/
structure DocClasses where
  is_about_covid19 : Int
  is_clear : Int
  deriving DecidableEq

/-- An input document handed to `upsert_page` (one line of the raw-page
file), with the fields the source reads. `classes_bert` is the
classifier score dictionary (topic scores plus the `is_useful` and
`is_about_false_rumor` entries). `domain`, `domain_label` and
`domain_label_en` are read with `.get(..., '')` in the source, so the
model stores the defaulted values directly. -/
structure Document where
  classes : DocClasses
  country : String
  orig : Translated
  ja_translated : Translated
  en_translated : Translated
  url : String
  classes_bert : List (String × ℚ)
  snippets : List (String × List String)
  snippets_en : List (String × List String)
  domain : String
  domain_label : String
  domain_label_en : String
  deriving DecidableEq

/-- A stored page (the value of the `page` key of one MongoDB
document). -/
structure Page where
  country : String
  displayed_country : String
  orig : OrigStored
  ja_translated : Translated
  en_translated : Translated
  url : String
  topics : List (String × ℚ)
  ja_snippets : List (String × String)
  en_snippets : List (String × String)
  is_checked : Int
  is_about_covid19 : Int
  is_useful : Int
  is_clear : Int
  is_about_false_rumor : Int
  domain : String
  ja_domain_label : String
  en_domain_label : String
  deriving DecidableEq

/-- Static data of `constants.py`: the fixed internal topic list, the
numeric thresholds, and the taxonomy/translation maps.  The spec treats
these as configuration "supplied as configuration, not computed", so
every operation is parametrised by them. -/
structure Constants where
  ITOPICS : List String
  SCORE_THRESHOLD : ℚ
  RUMOR_THRESHOLD : ℚ
  USEFUL_THRESHOLD : ℚ
  ETOPIC_TRANS_MAP : List ((String × String) × String)
  ECOUNTRY_TRANS_MAP : List ((String × String) × String)
  ITOPIC_ETOPIC_MAP : List (String × String)
  ETOPIC_ITOPICS_MAP : List (String × List String)
  ECOUNTRY_ICOUNTRIES_MAP : List (String × List String)

/-- The display language selector: the source reads the fields
`f'{lang}_snippets'`, `f'{lang}_translated'`, `f'{lang}_domain_label'`,
which exist for `ja` and `en`. -/
inductive Lang where
  | ja
  | en
  deriving DecidableEq

/-- The string value of the language selector. -/
def Lang.str : Lang → String
  | .ja => "ja"
  | .en => "en"

/-- The MongoDB collection: the stored pages in insertion order. -/
abbrev Collection := List Page

/-- `collection.find_one({'page.url': url})`: the first stored page with
the given url. -/
def findPage : Collection → String → Option Page
  | [], _ => none
  | p :: rest, url => if p.url = url then some p else findPage rest url

/-- `collection.update_one({'page.url': url}, {'$set': {'page': d}},
upsert=True)`: replaces the whole `page` value of the first document
matching the url; when none matches, the upsert inserts a document that
(filter plus `$set`) amounts to `{'page': d}`. -/
def setPageFirst (url : String) (d : Page) : Collection → Collection
  | [] => [d]
  | p :: rest => if p.url = url then d :: rest else p :: setPageFirst url d rest

/-! ### `upsert_page` (src/database.py lines 32-125) -/

/-- The `general_snippet` loop of `reshape_snippets`: scan `ITOPICS` in
order and stop (`break`) at the first topic that is a key of the snippet
dictionary; the general snippet is that topic's first snippet, or `''`
when that topic's list is empty. -/
def general_snippet (itopics : List String) (snippets : List (String × List String)) :
    String :=
  match itopics with
  | [] => ""
  | t :: rest =>
    match alookup snippets t with
    | some l => l.headD ""
    | none => general_snippet rest snippets

/-- The loop body of `reshape_snippets` for one internal topic: the
stripped first snippet of that topic when it is non-empty (Python
`snippets_about_topic and snippets_about_topic[0]`), else the general
snippet when that is non-empty, else `''`. -/
def snippet_for (itopics : List String) (snippets : List (String × List String))
    (itopic : String) : String :=
  let snippets_about_topic := (alookup snippets itopic).getD []
  match snippets_about_topic with
  | s0 :: _ =>
    if s0 ≠ "" then pyStrip s0
    else if general_snippet itopics snippets ≠ "" then
      general_snippet itopics snippets
    else ""
  | [] =>
    if general_snippet itopics snippets ≠ "" then
      general_snippet itopics snippets
    else ""

/-- The nested `reshape_snippets` of `upsert_page` (lines 35-53): the
dictionary keyed by the internal topics in order, each mapped to its
`snippet_for` value. -/
def reshape_snippets (itopics : List String) (snippets : List (String × List String)) :
    List (String × String) :=
  itopics.map (fun itopic => (itopic, snippet_for itopics snippets itopic))

/-- The dictionary comprehension of line 77-79: the classifier entries
whose key is an internal topic and whose score exceeds `0.5`, in
dictionary order. -/
def topics_to_score (itopics : List String) (classes_bert : List (String × ℚ)) :
    List (String × ℚ) :=
  classes_bert.filter (fun kv => itopics.contains kv.1 && decide (half < kv.2))

/-- Ordering used by `sorted(topics_to_score.items(), key=lambda x: x[1],
reverse=True)`: stable descending by score. -/
def scoreLe (a b : String × ℚ) : Bool := decide (b.2 ≤ a.2)

/-- The topic-selection loop of lines 80-85: iterate the score-sorted
candidates; keep the entry when `idx == 0` or its score exceeds
`SCORE_THRESHOLD`, and `break` at the first entry that fails. -/
def pageTopics (itopics : List String) (scoreThreshold : ℚ)
    (classes_bert : List (String × ℚ)) : List (String × ℚ) :=
  match stableSort scoreLe (topics_to_score itopics classes_bert) with
  | [] => []
  | x :: rest => x :: rest.takeWhile (fun kv => decide (scoreThreshold < kv.2))

/-- The `document_` record built by `upsert_page` (lines 97-115) from a
validated input document. -/
def document_ (k : Constants) (doc : Document) : Page :=
  { country := doc.country
    displayed_country := doc.country
    orig :=
      { title := pyStrip doc.orig.title
        timestamp := doc.orig.timestamp
        simple_timestamp := simple_timestamp_of doc.orig.timestamp }
    ja_translated :=
      { title := pyStrip doc.ja_translated.title
        timestamp := doc.ja_translated.timestamp }
    en_translated :=
      { title := pyStrip doc.en_translated.title
        timestamp := doc.en_translated.timestamp }
    url := doc.url
    topics := pageTopics k.ITOPICS k.SCORE_THRESHOLD doc.classes_bert
    ja_snippets := reshape_snippets k.ITOPICS doc.snippets
    en_snippets := reshape_snippets k.ITOPICS doc.snippets_en
    is_checked := 0
    is_about_covid19 := doc.classes.is_about_covid19
    is_useful := if k.USEFUL_THRESHOLD < dget doc.classes_bert "is_useful" then 1 else 0
    is_clear := doc.classes.is_clear
    is_about_false_rumor :=
      if k.RUMOR_THRESHOLD < dget doc.classes_bert "is_about_false_rumor" then 1 else 0
    domain := doc.domain
    ja_domain_label := doc.domain_label
    en_domain_label := doc.domain_label_en }

/-- `upsert_page` (lines 32-125).  Returns (no-op) when any of the three
title fields is the empty string; otherwise looks up the existing page
by url: overwrite entirely when the new original timestamp is strictly
greater, insert when absent, and do nothing otherwise. -/
def upsert_page (k : Constants) (doc : Document) (c : Collection) : Collection :=
  if doc.orig.title = "" then c
  else if doc.ja_translated.title = "" then c
  else if doc.en_translated.title = "" then c
  else
    let d := document_ k doc
    match findPage c doc.url with
    | some existing_page =>
      if pyLt existing_page.orig.timestamp doc.orig.timestamp then
        setPageFirst doc.url d c
      else c
    | none => c ++ [d]

/-! ### Filtering, sorting and the output view (lines 222-263) -/

/-- One clause of the `$and` filter built by `get_filter`. -/
inductive Clause where
  | covid
  | topicOr (itopics : List String)
  | countryIn (icountries : List String)
  deriving DecidableEq

/-- `get_filter` (lines 228-235): always the pandemic clause; the
`$or`-of-`$exists` topic clause only when `itopics` is non-empty; the
`$in` country clause only when `icountries` is non-empty. -/
def get_filter (itopics icountries : List String) : List Clause :=
  [Clause.covid]
    ++ (if itopics.isEmpty then [] else [Clause.topicOr itopics])
    ++ (if icountries.isEmpty then [] else [Clause.countryIn icountries])

/-- MongoDB semantics of one clause on a stored page:
`{'page.is_about_COVID-19': 1}` is equality with 1,
`{'page.topics.<t>': {'$exists': True}}` is key presence, and
`{'page.displayed_country': {'$in': ics}}` is membership. -/
def matchesClause (p : Page) : Clause → Bool
  | .covid => decide (p.is_about_covid19 = 1)
  | .topicOr itopics => itopics.any (fun t => (alookup p.topics t).isSome)
  | .countryIn icountries => icountries.contains p.displayed_country

/-- A page matches an `$and` filter when it matches every clause. -/
def matchesFilter (f : List Clause) (p : Page) : Bool := f.all (matchesClause p)

/-- One sort key of `get_sort`, always descending. -/
inductive SortKey where
  | simpleTs
  | topicScore (itopic : String)
  deriving DecidableEq

/-- `get_sort` (lines 237-242): primary key `page.orig.simple_timestamp`
descending, then one descending key per requested topic in order. -/
def get_sort (itopics : List String) : List SortKey :=
  SortKey.simpleTs :: itopics.map SortKey.topicScore

/-- Descending comparison of two optional scores, a missing value
(missing `page.topics.<t>` field, i.e. BSON null) ordering last. -/
def cmpDescScore : Option ℚ → Option ℚ → Ordering
  | some a, some b => if b < a then .lt else if a < b then .gt else .eq
  | some _, none => .lt
  | none, some _ => .gt
  | none, none => .eq

/-- Descending comparison of one sort key on two pages. -/
def cmpKey : SortKey → Page → Page → Ordering
  | .simpleTs, p, q =>
    if pyLt q.orig.simple_timestamp p.orig.simple_timestamp then .lt
    else if pyLt p.orig.simple_timestamp q.orig.simple_timestamp then .gt
    else .eq
  | .topicScore t, p, q => cmpDescScore (alookup p.topics t) (alookup q.topics t)

/-- Lexicographic "may come before" relation induced by a sort-key
list: the order the database returns documents in under `get_sort`. -/
def sortLe (keys : List SortKey) (p q : Page) : Bool :=
  match keys with
  | [] => true
  | k :: ks =>
    match cmpKey k p q with
    | .lt => true
    | .eq => sortLe ks p q
    | .gt => false

/-- One entry of the reshaped `topics` list of the output view. -/
structure TopicView where
  name : String
  snippet : String
  relatedness : ℚ
  deriving DecidableEq

/-- The caller-facing page produced by `reshape_page`: the per-language
fields are selected and the other language's fields dropped. -/
structure ReshapedPage where
  country : String
  displayed_country : String
  orig : OrigStored
  url : String
  topics : List TopicView
  translated : Translated
  domain_label : String
  is_checked : Int
  is_about_covid19 : Int
  is_useful : Int
  is_clear : Int
  is_about_false_rumor : Int
  domain : String
  deriving DecidableEq

/-- The `f'{lang}_snippets'` field. -/
def langSnippets (p : Page) : Lang → List (String × String)
  | .ja => p.ja_snippets
  | .en => p.en_snippets

/-- The `f'{lang}_translated'` field. -/
def langTranslated (p : Page) : Lang → Translated
  | .ja => p.ja_translated
  | .en => p.en_translated

/-- The `f'{lang}_domain_label'` field. -/
def langDomainLabel (p : Page) : Lang → String
  | .ja => p.ja_domain_label
  | .en => p.en_domain_label

/-- `reshape_page` (lines 244-263).  Map lookups
(`ITOPIC_ETOPIC_MAP[itopic]`, `ETOPIC_TRANS_MAP[(etopic, lang)]`,
snippet lookup) are modelled with an empty-string default; in the source
a missing key raises, which the spec calls a fatal configuration error.
The false-rumor flag is forced to 1 when the domain is `fij.info`. -/
def reshape_page (k : Constants) (lang : Lang) (page : Page) : ReshapedPage :=
  { country := page.country
    displayed_country := page.displayed_country
    orig := page.orig
    url := page.url
    topics := page.topics.map (fun kv =>
      { name :=
          (alookup k.ETOPIC_TRANS_MAP
            ((alookup k.ITOPIC_ETOPIC_MAP kv.1).getD "", lang.str)).getD ""
        snippet := (alookup (langSnippets page lang) kv.1).getD ""
        relatedness := kv.2 })
    translated := langTranslated page lang
    domain_label := langDomainLabel page lang
    is_checked := page.is_checked
    is_about_covid19 := page.is_about_covid19
    is_useful := page.is_useful
    is_clear := page.is_clear
    is_about_false_rumor :=
      if page.domain = "fij.info" then 1 else page.is_about_false_rumor
    domain := page.domain }

/-- `get_pages` (lines 222-226): filter, sort, then `skip(start)`,
`limit(limit)`, and reshape each page for the language. -/
def get_pages (k : Constants) (itopics icountries : List String)
    (start limit : Nat) (lang : Lang) (c : Collection) : List ReshapedPage :=
  (((stableSort (sortLe (get_sort itopics))
      (c.filter (matchesFilter (get_filter itopics icountries)))).drop start).take
    limit).map (reshape_page k lang)

/-! ### Read operations `classes` / `countries` / `search`
(lines 127-220) -/

/-- The result of a read operation: a single page list, one list per
key, or a nested key-to-key map, matching the three shapes the Python
functions return. -/
inductive QueryResult where
  | pages (l : List ReshapedPage)
  | byKey (m : List (String × List ReshapedPage))
  | nested (m : List (String × List (String × List ReshapedPage)))
  deriving DecidableEq

/-- The Elasticsearch query body built by `get_es_query` (lines
185-198): a boolean query over the region terms and the text match,
sorted by local timestamp descending, with `from`/`size` pagination. -/
structure EsQuery where
  regions : List String
  query : String
  start : Nat
  limit : Nat
  deriving DecidableEq

/-- `get_es_query` for a region list. -/
def get_es_query (regions : List String) (query : String) (start limit : Nat) :
    EsQuery :=
  { regions := regions, query := query, start := start, limit := limit }

/-- `convert_hits_to_pages` (lines 200-206): re-fetch each hit's url
from the collection and reshape it; hits whose url is no longer stored
are dropped.  The search engine is abstract, so a hit is its source
url. -/
def convert_hits_to_pages (k : Constants) (c : Collection) (lang : Lang)
    (hits : List String) : List ReshapedPage :=
  hits.filterMap (fun url => (findPage c url).map (reshape_page k lang))

/-- `search` (lines 184-220).  The Elasticsearch index is external: `es`
maps a query body to the url list of its hits.  With a country the
search runs once over that country's internal codes; otherwise once per
country of the map, the `all` sentinel skipped. -/
def search (es : EsQuery → List String) (k : Constants) (c : Collection)
    (ecountry : String) (start limit : Nat) (lang : Lang) (query : String) :
    QueryResult :=
  if ecountry ≠ "" then
    .pages (convert_hits_to_pages k c lang
      (es (get_es_query ((alookup k.ECOUNTRY_ICOUNTRIES_MAP ecountry).getD [])
        query start limit)))
  else
    .byKey ((k.ECOUNTRY_ICOUNTRIES_MAP.filter (fun kv => kv.1 != "all")).map
      (fun kv => (kv.1, convert_hits_to_pages k c lang
        (es (get_es_query kv.2 query start limit)))))

/-- Line 131 / 158: `ETOPIC_TRANS_MAP.get((etopic, 'ja'), etopic)`. -/
def etopicTranslated (k : Constants) (etopic : String) : String :=
  (alookup k.ETOPIC_TRANS_MAP (etopic, "ja")).getD etopic

/-- Line 132 / 159: `ECOUNTRY_TRANS_MAP.get((ecountry, 'ja'), ecountry)`. -/
def ecountryTranslated (k : Constants) (ecountry : String) : String :=
  (alookup k.ECOUNTRY_TRANS_MAP (ecountry, "ja")).getD ecountry

/-- `classes` (lines 127-155): `search` sentinel dispatch, then external
code translation, then the three-way branch on which selectors are
non-empty, the `all` sentinel excluded from iteration. -/
def classes (es : EsQuery → List String) (k : Constants) (c : Collection)
    (etopic ecountry : String) (start limit : Nat) (lang : Lang) (query : String) :
    QueryResult :=
  if etopic = "search" then search es k c ecountry start limit lang query
  else
    let etopic2 := etopicTranslated k etopic
    let ecountry2 := ecountryTranslated k ecountry
    if etopic2 ≠ "" ∧ ecountry2 ≠ "" then
      .pages (get_pages k ((alookup k.ETOPIC_ITOPICS_MAP etopic2).getD [])
        ((alookup k.ECOUNTRY_ICOUNTRIES_MAP ecountry2).getD []) start limit lang c)
    else if etopic2 ≠ "" then
      .byKey ((k.ECOUNTRY_ICOUNTRIES_MAP.filter (fun kv => kv.1 != "all")).map
        (fun kv => (kv.1, get_pages k ((alookup k.ETOPIC_ITOPICS_MAP etopic2).getD [])
          kv.2 start limit lang c)))
    else
      .nested ((k.ETOPIC_ITOPICS_MAP.filter (fun kv => kv.1 != "all")).map
        (fun tkv => (tkv.1,
          (k.ECOUNTRY_ICOUNTRIES_MAP.filter (fun kv => kv.1 != "all")).map
            (fun ckv => (ckv.1, get_pages k tkv.2 ckv.2 start limit lang c)))))

/-- `countries` (lines 157-182): the mirror of `classes` with the
country as the primary axis and no `search` sentinel. -/
def countries (k : Constants) (c : Collection) (ecountry etopic : String)
    (start limit : Nat) (lang : Lang) : QueryResult :=
  let etopic2 := etopicTranslated k etopic
  let ecountry2 := ecountryTranslated k ecountry
  if ecountry2 ≠ "" ∧ etopic2 ≠ "" then
    .pages (get_pages k ((alookup k.ETOPIC_ITOPICS_MAP etopic2).getD [])
      ((alookup k.ECOUNTRY_ICOUNTRIES_MAP ecountry2).getD []) start limit lang c)
  else if ecountry2 ≠ "" then
    .byKey ((k.ETOPIC_ITOPICS_MAP.filter (fun kv => kv.1 != "all")).map
      (fun kv => (kv.1, get_pages k kv.2
        ((alookup k.ECOUNTRY_ICOUNTRIES_MAP ecountry2).getD []) start limit lang c)))
  else
    .nested ((k.ECOUNTRY_ICOUNTRIES_MAP.filter (fun kv => kv.1 != "all")).map
      (fun ckv => (ckv.1,
        (k.ETOPIC_ITOPICS_MAP.filter (fun kv => kv.1 != "all")).map
          (fun tkv => (tkv.1, get_pages k tkv.2 ckv.2 start limit lang c)))))

/-! ### `update_page` (lines 265-304) -/

/-- The record `update_page` appends to the category-check audit log and
returns. -/
structure Updated where
  url : String
  is_about_covid19 : Int
  is_useful : Int
  is_about_false_rumor : Int
  new_country : String
  new_topics : List String
  notes : String
  time : String
  deriving DecidableEq

/-- The `$set` applied by `update_page` to a stored page. -/
def applyCorrection (covid useful rumor : Int) (icountry : String)
    (new_etopics : List (String × ℚ)) (p : Page) : Page :=
  { p with
    is_about_covid19 := covid
    is_useful := useful
    is_about_false_rumor := rumor
    is_checked := 1
    displayed_country := icountry
    topics := new_etopics }

/-- A stored page created by `update_one(..., upsert=True)` when no page
matches the url: MongoDB builds the document from the equality filter
(`page.url`) and the `$set` fields; every other field is absent, which
the fixed-shape model renders as the empty/zero default. -/
def blankPage (url : String) : Page :=
  { country := ""
    displayed_country := ""
    orig := { title := "", timestamp := "", simple_timestamp := "" }
    ja_translated := { title := "", timestamp := "" }
    en_translated := { title := "", timestamp := "" }
    url := url
    topics := []
    ja_snippets := []
    en_snippets := []
    is_checked := 0
    is_about_covid19 := 0
    is_useful := 0
    is_clear := 0
    is_about_false_rumor := 0
    domain := ""
    ja_domain_label := ""
    en_domain_label := "" }

/-- The `update_one(..., upsert=True)` of `update_page`: apply the
`$set` to the first page matching the url, or insert a fresh document
when none matches. -/
def setCorrectionFirst (url : String) (covid useful rumor : Int)
    (icountry : String) (new_etopics : List (String × ℚ)) :
    Collection → Collection
  | [] => [applyCorrection covid useful rumor icountry new_etopics (blankPage url)]
  | p :: rest =>
    if p.url = url then
      applyCorrection covid useful rumor icountry new_etopics p :: rest
    else p :: setCorrectionFirst url covid useful rumor icountry new_etopics rest

/-- `ETOPIC_ITOPICS_MAP[etopic][0]` for each corrected external topic:
`none` models the `KeyError`/`IndexError` the source raises when a topic
is missing from the map or maps to an empty list. -/
def firstItopics (k : Constants) : List String → Option (List String)
  | [] => some []
  | e :: rest =>
    match (alookup k.ETOPIC_ITOPICS_MAP e).bind List.head? with
    | some h => (firstItopics k rest).map (fun hs => h :: hs)
    | none => none

/-- `update_page` (lines 265-304).  The audit-log file is modelled as
the list of its JSON lines and the wall clock as the `now` argument.
Returns the new collection, the new log, and the applied change record
(which the source also returns); `none` models the exception on an
unmapped topic. -/
def update_page (k : Constants) (url : String)
    (is_about_covid_19 is_useful is_about_false_rumor : Bool)
    (icountry : String) (etopics : List String) (notes : String)
    (c : Collection) (log : List Updated) (now : String) :
    Option (Collection × List Updated × Updated) :=
  match firstItopics k etopics with
  | none => none
  | some heads =>
    let new_is_about_covid_19 : Int := if is_about_covid_19 then 1 else 0
    let new_is_useful : Int := if is_useful then 1 else 0
    let new_is_about_false_rumor : Int := if is_about_false_rumor then 1 else 0
    let new_etopics := dictOfList (heads.map (fun h => (h, (1 : ℚ))))
    let updated : Updated :=
      { url := url
        is_about_covid19 := new_is_about_covid_19
        is_useful := new_is_useful
        is_about_false_rumor := new_is_about_false_rumor
        new_country := icountry
        new_topics := new_etopics.map (fun kv => kv.1)
        notes := notes
        time := now }
    some
      (setCorrectionFirst url new_is_about_covid_19 new_is_useful
        new_is_about_false_rumor icountry new_etopics c,
       log ++ [updated], updated)

/-! ### Order lemmas for the Python string order -/

theorem lexLt_irrefl (l : List Char) : lexLt l l = false := by
  induction l with
  | nil => rfl
  | cons a as ih => simp [lexLt, lt_irrefl, ih]

theorem lexLt_asymm : ∀ (a b : List Char), lexLt a b = true → lexLt b a = false
  | [], [] => by intro h; simp [lexLt] at h
  | [], _ :: _ => fun _ => rfl
  | _ :: _, [] => by intro h; simp [lexLt] at h
  | a :: as, b :: bs => by
    rcases lt_trichotomy a b with h | h | h
    · simp [lexLt, h, lt_asymm h]
    · subst h
      simp only [lexLt, lt_irrefl, if_false]
      exact lexLt_asymm as bs
    · simp [lexLt, h, lt_asymm h]

theorem lexLt_le_lt : ∀ (c b a : List Char),
    lexLt c b = false → lexLt c a = true → lexLt b a = true
  | [], b, a => by
    cases b with
    | nil => intro _ h2; exact h2
    | cons bh bt => intro h1 _; simp [lexLt] at h1
  | _ :: _, _, [] => by intro _ h2; simp [lexLt] at h2
  | ch :: ct, [], ah :: at' => fun _ _ => rfl
  | ch :: ct, bh :: bt, ah :: at' => by
    intro h1 h2
    rcases lt_trichotomy ch bh with hcb | hcb | hcb
    · simp [lexLt, hcb] at h1
    · subst hcb
      simp only [lexLt, lt_irrefl, if_false] at h1
      rcases lt_trichotomy ch ah with hca | hca | hca
      · simp [lexLt, hca]
      · subst hca
        simp only [lexLt, lt_irrefl, if_false] at h2 ⊢
        exact lexLt_le_lt ct bt at' h1 h2
      · simp [lexLt, hca, lt_asymm hca] at h2
    · rcases lt_trichotomy ch ah with hca | hca | hca
      · simp [lexLt, hcb.trans hca]
      · subst hca; simp [lexLt, hcb]
      · simp [lexLt, hca, lt_asymm hca] at h2

theorem pyLe_refl (s : String) : pyLe s s = true := by
  simp [pyLe, pyLt, lexLt_irrefl]

theorem pyLe_of_pyLt {a b : String} (h : pyLt a b = true) : pyLe a b = true := by
  simp only [pyLe, pyLt] at *
  simp [lexLt_asymm _ _ h]

theorem pyLe_trans {a b c : String} (h1 : pyLe a b = true) (h2 : pyLe b c = true) :
    pyLe a c = true := by
  simp only [pyLe, pyLt, Bool.not_eq_true'] at *
  by_contra hne
  rw [Bool.not_eq_false] at hne
  have := lexLt_le_lt c.data b.data a.data h2 hne
  rw [h1] at this
  exact Bool.false_ne_true this

/-! ### Lemmas on the collection model -/

theorem findPage_append_some {c : Collection} {url : String} {p : Page}
    (h : findPage c url = some p) (l : Collection) :
    findPage (c ++ l) url = some p := by
  induction c with
  | nil => simp [findPage] at h
  | cons q rest ih =>
    by_cases hq : q.url = url
    · simpa [findPage, hq] using h
    · simp only [findPage, hq, if_false, List.cons_append] at h ⊢
      exact ih h

theorem findPage_append_one_none {c : Collection} {url : String} {d : Page}
    (h : findPage c url = none) :
    findPage (c ++ [d]) url = if d.url = url then some d else none := by
  induction c with
  | nil => simp [findPage]
  | cons q rest ih =>
    by_cases hq : q.url = url
    · simp [findPage, hq] at h
    · simp only [findPage, hq, if_false, List.cons_append] at h ⊢
      exact ih h

theorem findPage_setPageFirst_self {c : Collection} {url : String} {ex d : Page}
    (h : findPage c url = some ex) (hd : d.url = url) :
    findPage (setPageFirst url d c) url = some d := by
  induction c with
  | nil => simp [findPage] at h
  | cons q rest ih =>
    by_cases hq : q.url = url
    · simp [setPageFirst, findPage, hq, hd]
    · simp only [findPage, hq, if_false] at h
      simp only [setPageFirst, hq, if_false, findPage]
      exact ih h

theorem findPage_setPageFirst_other {c : Collection} {url url' : String} {d : Page}
    (h : url' ≠ url) (hd : d.url = url) :
    findPage (setPageFirst url d c) url' = findPage c url' := by
  have hd' : ¬ d.url = url' := by rw [hd]; exact fun hh => h hh.symm
  induction c with
  | nil =>
    simp only [setPageFirst, findPage]
    rw [if_neg hd']
  | cons q rest ih =>
    by_cases hq : q.url = url
    · have hq' : ¬ q.url = url' := by rw [hq]; exact fun hh => h hh.symm
      simp only [setPageFirst, findPage]
      rw [if_pos hq]
      simp only [findPage]
      rw [if_neg hd', if_neg hq']
    · simp only [setPageFirst, findPage]
      rw [if_neg hq]
      simp only [findPage]
      by_cases hq2 : q.url = url'
      · rw [if_pos hq2, if_pos hq2]
      · rw [if_neg hq2, if_neg hq2, ih]

/-- Number of stored records for a url. -/
def countUrl (c : Collection) (url : String) : Nat :=
  (c.filter (fun p => decide (p.url = url))).length

theorem countUrl_of_findPage_none {c : Collection} {url : String}
    (h : findPage c url = none) : countUrl c url = 0 := by
  induction c with
  | nil => rfl
  | cons q rest ih =>
    by_cases hq : q.url = url
    · simp [findPage, hq] at h
    · simp only [findPage, hq, if_false] at h
      simp [countUrl, List.filter, hq] at ih ⊢
      exact ih h

theorem countUrl_pos_of_findPage_some {c : Collection} {url : String} {ex : Page}
    (h : findPage c url = some ex) : 1 ≤ countUrl c url := by
  induction c with
  | nil => simp [findPage] at h
  | cons q rest ih =>
    by_cases hq : q.url = url
    · simp [countUrl, List.filter, hq]
    · simp only [findPage, hq, if_false] at h
      simp only [countUrl, List.filter, hq, decide_eq_true_eq, if_false] at ih ⊢
      simpa [countUrl, List.filter] using ih h

theorem countUrl_append_one (c : Collection) (d : Page) (url : String) :
    countUrl (c ++ [d]) url = countUrl c url + (if d.url = url then 1 else 0) := by
  by_cases hd : d.url = url <;> simp [countUrl, List.filter_append, List.filter, hd]

theorem countUrl_setPageFirst {c : Collection} {url : String} {ex d : Page}
    (h : findPage c url = some ex) (hd : d.url = url) :
    countUrl (setPageFirst url d c) url = countUrl c url := by
  induction c with
  | nil => simp [findPage] at h
  | cons q rest ih =>
    by_cases hq : q.url = url
    · simp [setPageFirst, countUrl, List.filter, hq, hd]
    · simp only [findPage, hq, if_false] at h
      simp only [setPageFirst, hq, if_false]
      simp only [countUrl, List.filter, hq, decide_eq_true_eq, if_false] at ih ⊢
      simpa [countUrl] using ih h

/-- Case analysis of `upsert_page` on a document that passes title
validation. -/
theorem upsert_page_valid (k : Constants) (doc : Document) (c : Collection)
    (h1 : doc.orig.title ≠ "") (h2 : doc.ja_translated.title ≠ "")
    (h3 : doc.en_translated.title ≠ "") :
    upsert_page k doc c =
      match findPage c doc.url with
      | some ex =>
        if pyLt ex.orig.timestamp doc.orig.timestamp then
          setPageFirst doc.url (document_ k doc) c
        else c
      | none => c ++ [document_ k doc] := by
  simp [upsert_page, h1, h2, h3]

/-- `upsert_page` on a valid document whose url is already stored. -/
theorem upsert_page_found {k : Constants} {doc : Document} {c : Collection}
    {ex : Page}
    (h1 : doc.orig.title ≠ "") (h2 : doc.ja_translated.title ≠ "")
    (h3 : doc.en_translated.title ≠ "")
    (hf : findPage c doc.url = some ex) :
    upsert_page k doc c =
      if pyLt ex.orig.timestamp doc.orig.timestamp then
        setPageFirst doc.url (document_ k doc) c
      else c := by
  simp [upsert_page, h1, h2, h3, hf]

/-- `upsert_page` on a valid document whose url is not yet stored. -/
theorem upsert_page_notfound {k : Constants} {doc : Document} {c : Collection}
    (h1 : doc.orig.title ≠ "") (h2 : doc.ja_translated.title ≠ "")
    (h3 : doc.en_translated.title ≠ "")
    (hf : findPage c doc.url = none) :
    upsert_page k doc c = c ++ [document_ k doc] := by
  simp [upsert_page, h1, h2, h3, hf]

/-! ### Shared concrete material for witnesses -/

/-- A sample configuration. -/
def sampleK : Constants :=
  { ITOPICS := ["topicA", "topicB"]
    SCORE_THRESHOLD := 1
    RUMOR_THRESHOLD := 1
    USEFUL_THRESHOLD := 1
    ETOPIC_TRANS_MAP := [(("etA", "ja"), "etAja")]
    ECOUNTRY_TRANS_MAP := []
    ITOPIC_ETOPIC_MAP := [("topicA", "etA")]
    ETOPIC_ITOPICS_MAP := [("etA", ["topicA"]), ("all", ["topicA", "topicB"])]
    ECOUNTRY_ICOUNTRIES_MAP := [("us", ["us"]), ("all", ["us", "jp"])] }

/-- A sample valid input document. -/
def sampleDoc : Document :=
  { classes := { is_about_covid19 := 1, is_clear := 1 }
    country := "jp"
    orig := { title := " T ", timestamp := "2020-05-01T10:00:00" }
    ja_translated := { title := "TJ", timestamp := "2020-05-02T10:00:00" }
    en_translated := { title := "TE", timestamp := "2020-05-02T11:00:00" }
    url := "http://x/1"
    classes_bert :=
      [("topicA", 3), ("topicB", 2), ("is_useful", 5), ("is_about_false_rumor", 0)]
    snippets := [("topicA", ["sa"])]
    snippets_en := []
    domain := "x"
    domain_label := "X"
    domain_label_en := "XE" }

/-- The same document with an older original timestamp. -/
def olderDoc : Document :=
  { sampleDoc with orig := { title := "Old", timestamp := "2020-04-01T10:00:00" } }

/-- A stored page with `sampleDoc`'s url but the older timestamp. -/
def samplePage : Page := document_ sampleK olderDoc

/-! ### C3: required-field rejection -/

/-- C3: for every input document in which the original title, the
Japanese-translated title, or the English-translated title is empty,
`upsert_page` returns without performing any database write, so the
collection (hence its size) is unchanged. -/
theorem upsert_page_rejects_empty_title (k : Constants) (doc : Document)
    (c : Collection)
    (h : doc.orig.title = "" ∨ doc.ja_translated.title = "" ∨
      doc.en_translated.title = "") :
    upsert_page k doc c = c := by
  rcases h with h | h | h
  · simp [upsert_page, h]
  · by_cases h0 : doc.orig.title = "" <;> simp [upsert_page, h0, h]
  · by_cases h0 : doc.orig.title = "" <;>
      by_cases hj : doc.ja_translated.title = "" <;>
      simp [upsert_page, h0, hj, h]

/-- Witness for C3: a document whose Japanese title is empty leaves a
non-empty collection untouched. -/
theorem upsert_page_rejects_empty_title_witness :
    upsert_page sampleK
      { sampleDoc with ja_translated := { title := "", timestamp := "t" } }
      [samplePage] = [samplePage] :=
  upsert_page_rejects_empty_title sampleK _ _ (Or.inr (Or.inl rfl))

/-! ### C7: false-rumor domain override -/

/-- C7: for every stored page whose domain equals the fact-checking
domain `fij.info`, `reshape_page` reports `is_about_false_rumor` as true
(1) in the output view regardless of the stored flag; for every other
domain the stored flag is passed through unchanged. -/
theorem reshape_page_false_rumor_override (k : Constants) (lang : Lang)
    (p : Page) :
    (reshape_page k lang p).is_about_false_rumor =
      if p.domain = "fij.info" then 1 else p.is_about_false_rumor := rfl

/-! ### C10: whitespace-only titles are accepted and stored stripped -/

/-- C10: an input document whose three title fields are non-empty but
consist only of whitespace is accepted (only the exactly-empty string
triggers rejection) and stored with the titles stripped, i.e. as empty
strings. -/
theorem upsert_page_whitespace_title (k : Constants) (doc : Document)
    (c : Collection)
    (h1 : doc.orig.title ≠ "") (h2 : doc.ja_translated.title ≠ "")
    (h3 : doc.en_translated.title ≠ "")
    (hw1 : pyStrip doc.orig.title = "") (hw2 : pyStrip doc.ja_translated.title = "")
    (hw3 : pyStrip doc.en_translated.title = "")
    (hf : findPage c doc.url = none) :
    upsert_page k doc c = c ++ [document_ k doc] ∧
    (document_ k doc).orig.title = "" ∧
    (document_ k doc).ja_translated.title = "" ∧
    (document_ k doc).en_translated.title = "" := by
  refine ⟨?_, ?_, ?_, ?_⟩
  · rw [upsert_page_valid k doc c h1 h2 h3, hf]
  · simpa [document_] using hw1
  · simpa [document_] using hw2
  · simpa [document_] using hw3

/-- Witness for C10: whitespace-only titles are inserted, stored as
empty strings. -/
theorem upsert_page_whitespace_title_witness :
    upsert_page sampleK
      { sampleDoc with
        orig := { title := "  ", timestamp := "2020-05-01T10:00:00" }
        ja_translated := { title := " ", timestamp := "t" }
        en_translated := { title := "\t", timestamp := "t" } } [] =
      [] ++ [document_ sampleK
        { sampleDoc with
          orig := { title := "  ", timestamp := "2020-05-01T10:00:00" }
          ja_translated := { title := " ", timestamp := "t" }
          en_translated := { title := "\t", timestamp := "t" } }] ∧
    (document_ sampleK
      { sampleDoc with
        orig := { title := "  ", timestamp := "2020-05-01T10:00:00" }
        ja_translated := { title := " ", timestamp := "t" }
        en_translated := { title := "\t", timestamp := "t" } }).orig.title = "" ∧
    (document_ sampleK
      { sampleDoc with
        orig := { title := "  ", timestamp := "2020-05-01T10:00:00" }
        ja_translated := { title := " ", timestamp := "t" }
        en_translated := { title := "\t", timestamp := "t" } }).ja_translated.title
      = "" ∧
    (document_ sampleK
      { sampleDoc with
        orig := { title := "  ", timestamp := "2020-05-01T10:00:00" }
        ja_translated := { title := " ", timestamp := "t" }
        en_translated := { title := "\t", timestamp := "t" } }).en_translated.title
      = "" :=
  upsert_page_whitespace_title sampleK _ [] (by decide) (by decide) (by decide)
    (by decide) (by decide) (by decide) rfl

/-! ### C1: monotonic overwrite -/

/-- One `upsert_page` call never decreases the stored original timestamp
of any url. -/
theorem upsert_ts_step (k : Constants) (doc : Document) {c : Collection}
    {url : String} {ex : Page} (h : findPage c url = some ex) :
    ∃ ex2, findPage (upsert_page k doc c) url = some ex2 ∧
      pyLe ex.orig.timestamp ex2.orig.timestamp = true := by
  by_cases h1 : doc.orig.title = ""
  · exact ⟨ex, by rw [upsert_page_rejects_empty_title k doc c (Or.inl h1)]; exact h,
      pyLe_refl _⟩
  by_cases h2 : doc.ja_translated.title = ""
  · exact ⟨ex,
      by rw [upsert_page_rejects_empty_title k doc c (Or.inr (Or.inl h2))]; exact h,
      pyLe_refl _⟩
  by_cases h3 : doc.en_translated.title = ""
  · exact ⟨ex,
      by rw [upsert_page_rejects_empty_title k doc c (Or.inr (Or.inr h3))]; exact h,
      pyLe_refl _⟩
  cases hf : findPage c doc.url with
  | none =>
    rw [upsert_page_notfound h1 h2 h3 hf]
    exact ⟨ex, findPage_append_some h _, pyLe_refl _⟩
  | some ex' =>
    rw [upsert_page_found h1 h2 h3 hf]
    by_cases hlt : pyLt ex'.orig.timestamp doc.orig.timestamp
    · rw [if_pos hlt]
      by_cases hu : url = doc.url
      · subst hu
        rw [h] at hf
        cases hf
        exact ⟨document_ k doc, findPage_setPageFirst_self h rfl, pyLe_of_pyLt hlt⟩
      · exact ⟨ex, by rw [findPage_setPageFirst_other hu rfl]; exact h, pyLe_refl _⟩
    · rw [if_neg hlt]
      exact ⟨ex, h, pyLe_refl _⟩

/-- C1: `upsert_page` looks up the existing page by url and overwrites
it entirely exactly when the new record's original timestamp is strictly
greater than the stored one; it inserts when no page exists; and when a
page exists but the new timestamp is not greater it is a no-op with no
error.  Hence, across any sequence of `upsert_page` calls, the stored
original timestamp for a url never decreases. -/
theorem upsert_page_monotonic (k : Constants) :
    (∀ (doc : Document) (c : Collection),
      doc.orig.title ≠ "" → doc.ja_translated.title ≠ "" →
      doc.en_translated.title ≠ "" →
      (findPage c doc.url = none →
        upsert_page k doc c = c ++ [document_ k doc]) ∧
      (∀ ex, findPage c doc.url = some ex →
        (pyLt ex.orig.timestamp doc.orig.timestamp = true →
          upsert_page k doc c = setPageFirst doc.url (document_ k doc) c) ∧
        (pyLt ex.orig.timestamp doc.orig.timestamp = false →
          upsert_page k doc c = c))) ∧
    (∀ (docs : List Document) (c : Collection) (url : String) (ex : Page),
      findPage c url = some ex →
      ∃ ex2,
        findPage (docs.foldl (fun acc d => upsert_page k d acc) c) url = some ex2 ∧
        pyLe ex.orig.timestamp ex2.orig.timestamp = true) := by
  constructor
  · intro doc c h1 h2 h3
    constructor
    · intro hf; exact upsert_page_notfound h1 h2 h3 hf
    · intro ex hf
      constructor
      · intro hlt; rw [upsert_page_found h1 h2 h3 hf, if_pos hlt]
      · intro hlt; rw [upsert_page_found h1 h2 h3 hf, hlt, if_neg Bool.false_ne_true]
  · intro docs
    induction docs with
    | nil => exact fun c url ex h => ⟨ex, h, pyLe_refl _⟩
    | cons d ds ih =>
      intro c url ex h
      obtain ⟨ex1, hf1, hle1⟩ := upsert_ts_step k d h
      obtain ⟨ex2, hf2, hle2⟩ := ih (upsert_page k d c) url ex1 hf1
      exact ⟨ex2, hf2, pyLe_trans hle1 hle2⟩

/-- Witness for C1: a fresh url is inserted, and replaying a newer
document over an older stored page leaves a timestamp at least the old
one. -/
theorem upsert_page_monotonic_witness :
    (upsert_page sampleK sampleDoc [] = [] ++ [document_ sampleK sampleDoc]) ∧
    (∃ ex2,
      findPage
        ([sampleDoc].foldl (fun acc d => upsert_page sampleK d acc) [samplePage])
        "http://x/1" = some ex2 ∧
      pyLe samplePage.orig.timestamp ex2.orig.timestamp = true) :=
  ⟨((upsert_page_monotonic sampleK).1 sampleDoc [] (by decide) (by decide)
      (by decide)).1 rfl,
    (upsert_page_monotonic sampleK).2 [sampleDoc] [samplePage] "http://x/1"
      samplePage (by decide)⟩

/-! ### C5: upsert idempotence -/

/-- C5: for a valid page payload, upserting twice starting from a
collection holding at most one record for the url leaves exactly one
stored record for that url, and the collection is identical to the one
produced by a single upsert (the second call sees an equal, hence
not-greater, timestamp and is a no-op). -/
theorem upsert_page_idempotent (k : Constants) (doc : Document) (c : Collection)
    (h1 : doc.orig.title ≠ "") (h2 : doc.ja_translated.title ≠ "")
    (h3 : doc.en_translated.title ≠ "")
    (hc : countUrl c doc.url ≤ 1) :
    upsert_page k doc (upsert_page k doc c) = upsert_page k doc c ∧
    countUrl (upsert_page k doc c) doc.url = 1 := by
  have hself : pyLt (document_ k doc).orig.timestamp doc.orig.timestamp = false := by
    simp [document_, pyLt, lexLt_irrefl]
  have hurl : (document_ k doc).url = doc.url := rfl
  cases hf : findPage c doc.url with
  | none =>
    rw [upsert_page_notfound h1 h2 h3 hf]
    have hfind2 : findPage (c ++ [document_ k doc]) doc.url =
        some (document_ k doc) := by
      rw [findPage_append_one_none hf, if_pos hurl]
    constructor
    · rw [upsert_page_found h1 h2 h3 hfind2, hself, if_neg Bool.false_ne_true]
    · rw [countUrl_append_one, countUrl_of_findPage_none hf, if_pos hurl]
  | some ex =>
    have hcount : countUrl c doc.url = 1 :=
      le_antisymm hc (countUrl_pos_of_findPage_some hf)
    rw [upsert_page_found h1 h2 h3 hf]
    by_cases hlt : pyLt ex.orig.timestamp doc.orig.timestamp
    · rw [if_pos hlt]
      have hfind2 : findPage (setPageFirst doc.url (document_ k doc) c) doc.url =
          some (document_ k doc) := findPage_setPageFirst_self hf hurl
      constructor
      · rw [upsert_page_found h1 h2 h3 hfind2, hself, if_neg Bool.false_ne_true]
      · rw [countUrl_setPageFirst hf hurl, hcount]
    · rw [if_neg hlt]
      constructor
      · rw [upsert_page_found h1 h2 h3 hf, if_neg hlt]
      · exact hcount

/-- Witness for C5: upserting `sampleDoc` twice into the empty
collection equals a single upsert and stores exactly one record. -/
theorem upsert_page_idempotent_witness :
    upsert_page sampleK sampleDoc (upsert_page sampleK sampleDoc []) =
      upsert_page sampleK sampleDoc [] ∧
    countUrl (upsert_page sampleK sampleDoc []) sampleDoc.url = 1 :=
  upsert_page_idempotent sampleK sampleDoc [] (by decide) (by decide) (by decide)
    (by decide)

/-! ### Sorting lemmas for topic selection -/

theorem mem_insertStable {α : Type} (le : α → α → Bool) (x : α) (l : List α)
    (y : α) : y ∈ insertStable le x l ↔ y = x ∨ y ∈ l := by
  induction l with
  | nil => simp [insertStable]
  | cons z zs ih =>
    by_cases h : le x z
    · simp [insertStable, h]
    · simp only [insertStable, h, Bool.false_eq_true, if_false, List.mem_cons, ih]
      tauto

theorem mem_stableSort {α : Type} (le : α → α → Bool) (l : List α) (y : α) :
    y ∈ stableSort le l ↔ y ∈ l := by
  induction l with
  | nil => simp [stableSort]
  | cons z zs ih =>
    simp only [stableSort, List.foldr] at ih ⊢
    rw [mem_insertStable, ih, List.mem_cons]

theorem pairwise_insertStable {α : Type} (le : α → α → Bool)
    (htot : ∀ a b, le a b = true ∨ le b a = true)
    (htrans : ∀ a b c, le a b = true → le b c = true → le a c = true)
    (x : α) (l : List α) (h : l.Pairwise (fun a b => le a b = true)) :
    (insertStable le x l).Pairwise (fun a b => le a b = true) := by
  induction l with
  | nil => simp [insertStable]
  | cons z zs ih =>
    rw [List.pairwise_cons] at h
    by_cases hxz : le x z
    · simp only [insertStable, hxz, if_true]
      rw [List.pairwise_cons]
      refine ⟨?_, List.pairwise_cons.2 h⟩
      intro b hb
      rcases List.mem_cons.1 hb with hb | hb
      · subst hb; exact hxz
      · exact htrans x z b hxz (h.1 b hb)
    · have hzx : le z x = true := by
        rcases htot x z with hh | hh
        · exact absurd hh hxz
        · exact hh
      simp only [insertStable, hxz, Bool.false_eq_true, if_false]
      rw [List.pairwise_cons]
      refine ⟨?_, ih h.2⟩
      intro b hb
      rcases (mem_insertStable le x zs b).1 hb with hb | hb
      · subst hb; exact hzx
      · exact h.1 b hb

theorem pairwise_stableSort {α : Type} (le : α → α → Bool)
    (htot : ∀ a b, le a b = true ∨ le b a = true)
    (htrans : ∀ a b c, le a b = true → le b c = true → le a c = true)
    (l : List α) :
    (stableSort le l).Pairwise (fun a b => le a b = true) := by
  induction l with
  | nil => simp [stableSort]
  | cons z zs ih => exact pairwise_insertStable le htot htrans z _ ih

theorem mem_takeWhile_of_upclosed {α : Type} (P : α → Bool) (le : α → α → Bool)
    (hup : ∀ a b, le a b = true → P b = true → P a = true) :
    ∀ l : List α, l.Pairwise (fun a b => le a b = true) →
      ∀ x ∈ l, P x = true → x ∈ l.takeWhile P := by
  intro l
  induction l with
  | nil => intro _ x hx; simp at hx
  | cons y ys ih =>
    intro hpw x hx hPx
    rw [List.pairwise_cons] at hpw
    rcases List.mem_cons.1 hx with hx | hx
    · subst hx
      rw [List.takeWhile_cons, hPx]
      exact List.mem_cons_self x _
    · have hPy : P y = true := hup y x (hpw.1 x hx) hPx
      rw [List.takeWhile_cons, hPy]
      exact List.mem_cons_of_mem y (ih hpw.2 x hx hPx)

theorem scoreLe_total (a b : String × ℚ) : scoreLe a b = true ∨ scoreLe b a = true := by
  simp only [scoreLe, decide_eq_true_eq]
  exact le_total b.2 a.2

theorem scoreLe_trans (a b c : String × ℚ) (h1 : scoreLe a b = true)
    (h2 : scoreLe b c = true) : scoreLe a c = true := by
  simp only [scoreLe, decide_eq_true_eq] at *
  exact h2.trans h1

/-! ### C2: topic selection (corrected) -/

/-- A document all of whose classifier scores are at most `0.5`. -/
def lowScoreDoc : Document :=
  { sampleDoc with
    classes_bert := [("topicA", 0), ("is_useful", 0), ("is_about_false_rumor", 0)] }

/-- Counterexample to C2 as stated: every classifier score of
`lowScoreDoc` is at most 0.5, `upsert_page` accepts and stores the page,
and the kept topic set is empty — not "exactly one topic kept at
minimum even when all scores are ≤ 0.5".  The `idx == 0` rescue of the
selection loop applies only to candidates that already passed the strict
`> 0.5` inclusion filter. -/
theorem topic_selection_counterexample :
    (∀ kv ∈ lowScoreDoc.classes_bert, kv.2 ≤ half) ∧
    upsert_page sampleK lowScoreDoc [] = [document_ sampleK lowScoreDoc] ∧
    (document_ sampleK lowScoreDoc).topics = [] := by decide

/-- C2 (amended): `upsert_page` keeps the classifier topic scores
strictly greater than 0.5 (the candidates), then further prunes to
scores above `SCORE_THRESHOLD`, always keeping at least the single
highest-scoring candidate even if it is below `SCORE_THRESHOLD`; when no
score exceeds 0.5 the kept set is empty. -/
theorem topic_selection_characterization :
    (∀ (k : Constants) (doc : Document),
      (document_ k doc).topics =
        pageTopics k.ITOPICS k.SCORE_THRESHOLD doc.classes_bert) ∧
    (∀ (itopics : List String) (thr : ℚ) (cb : List (String × ℚ)),
      (∀ kv, kv ∈ topics_to_score itopics cb ↔
        kv ∈ cb ∧ kv.1 ∈ itopics ∧ half < kv.2) ∧
      (∀ kv ∈ pageTopics itopics thr cb, kv ∈ topics_to_score itopics cb) ∧
      (topics_to_score itopics cb = [] → pageTopics itopics thr cb = []) ∧
      (topics_to_score itopics cb ≠ [] →
        ∃ h rest, pageTopics itopics thr cb = h :: rest ∧
          h ∈ topics_to_score itopics cb ∧
          (∀ kv ∈ topics_to_score itopics cb, kv.2 ≤ h.2) ∧
          (∀ kv ∈ rest, thr < kv.2)) ∧
      (∀ kv ∈ topics_to_score itopics cb, thr < kv.2 →
        kv ∈ pageTopics itopics thr cb)) := by
  refine ⟨fun k doc => rfl, fun itopics thr cb => ?_⟩
  have hmem : ∀ kv, kv ∈ topics_to_score itopics cb ↔
      kv ∈ cb ∧ kv.1 ∈ itopics ∧ half < kv.2 := by
    intro kv
    simp [topics_to_score, List.mem_filter, List.elem_iff, and_assoc]
  refine ⟨hmem, ?_, ?_, ?_, ?_⟩
  · intro kv hkv
    cases hs : stableSort scoreLe (topics_to_score itopics cb) with
    | nil => rw [pageTopics, hs] at hkv; simp at hkv
    | cons x rest =>
      rw [pageTopics, hs] at hkv
      rcases List.mem_cons.1 hkv with hkv | hkv
      · subst hkv
        exact (mem_stableSort _ _ _).1 (hs ▸ List.mem_cons_self kv rest)
      · have : kv ∈ rest := (List.takeWhile_sublist _).mem hkv
        exact (mem_stableSort _ _ _).1 (hs ▸ List.mem_cons_of_mem x this)
  · intro he
    rw [pageTopics, he]
    rfl
  · intro hne
    cases hs : stableSort scoreLe (topics_to_score itopics cb) with
    | nil =>
      exfalso
      apply hne
      cases hc : topics_to_score itopics cb with
      | nil => rfl
      | cons y ys =>
        have : y ∈ stableSort scoreLe (topics_to_score itopics cb) :=
          (mem_stableSort _ _ _).2 (hc ▸ List.mem_cons_self y ys)
        rw [hs] at this
        simp at this
    | cons x rest =>
      refine ⟨x, rest.takeWhile (fun kv => decide (thr < kv.2)),
        by rw [pageTopics, hs], ?_, ?_, ?_⟩
      · exact (mem_stableSort _ _ _).1 (hs ▸ List.mem_cons_self x rest)
      · intro kv hkv
        have hkv' : kv ∈ x :: rest := by
          rw [← hs]
          exact (mem_stableSort _ _ _).2 hkv
        have hpw := pairwise_stableSort scoreLe scoreLe_total scoreLe_trans
          (topics_to_score itopics cb)
        rw [hs, List.pairwise_cons] at hpw
        rcases List.mem_cons.1 hkv' with hkv' | hkv'
        · subst hkv'; exact le_refl _
        · have := hpw.1 kv hkv'
          simpa [scoreLe] using this
      · intro kv hkv
        have := List.mem_takeWhile_imp hkv
        simpa using this
  · intro kv hkv hthr
    cases hs : stableSort scoreLe (topics_to_score itopics cb) with
    | nil =>
      have : kv ∈ stableSort scoreLe (topics_to_score itopics cb) :=
        (mem_stableSort _ _ _).2 hkv
      rw [hs] at this
      simp at this
    | cons x rest =>
      have hkv' : kv ∈ x :: rest := by
        rw [← hs]
        exact (mem_stableSort _ _ _).2 hkv
      rw [pageTopics, hs]
      rcases List.mem_cons.1 hkv' with hkv' | hkv'
      · subst hkv'; exact List.mem_cons_self kv _
      · refine List.mem_cons_of_mem x ?_
        have hpw := pairwise_stableSort scoreLe scoreLe_total scoreLe_trans
          (topics_to_score itopics cb)
        rw [hs, List.pairwise_cons] at hpw
        refine mem_takeWhile_of_upclosed _ scoreLe ?_ rest hpw.2 kv hkv' (by simpa)
        intro a b hab hPb
        simp only [scoreLe, decide_eq_true_eq] at hab hPb ⊢
        exact lt_of_lt_of_le hPb hab

/-- Witness for C2 (amended): with candidates above 0.5 present, the
top-scoring candidate is kept even though the secondary threshold prunes
the rest, and a candidate above both thresholds is kept. -/
theorem topic_selection_characterization_witness :
    (∃ h rest, pageTopics ["x", "y", "z"] 3 [("x", 9), ("y", 2), ("z", 0)] =
        h :: rest ∧
      h ∈ topics_to_score ["x", "y", "z"] [("x", 9), ("y", 2), ("z", 0)] ∧
      (∀ kv ∈ topics_to_score ["x", "y", "z"] [("x", 9), ("y", 2), ("z", 0)],
        kv.2 ≤ h.2) ∧
      (∀ kv ∈ rest, (3 : ℚ) < kv.2)) ∧
    ("x", (9 : ℚ)) ∈ pageTopics ["x", "y", "z"] 3 [("x", 9), ("y", 2), ("z", 0)] :=
  ⟨(topic_selection_characterization.2 ["x", "y", "z"] 3
      [("x", 9), ("y", 2), ("z", 0)]).2.2.2.1 (by decide),
    (topic_selection_characterization.2 ["x", "y", "z"] 3
      [("x", 9), ("y", 2), ("z", 0)]).2.2.2.2 ("x", 9) (by decide) (by decide)⟩

/-! ### C6: snippet reshaping (corrected) -/

/-- Looking a key up in a dictionary built by mapping each key of a list
to a value yields the value of the function at that key. -/
theorem alookup_map_self {β : Type} (f : String → β) (l : List String) (t : String)
    (h : t ∈ l) : alookup (l.map (fun x => (x, f x))) t = some (f t) := by
  induction l with
  | nil => simp at h
  | cons a rest ih =>
    by_cases ha : a = t
    · subst ha
      simp [alookup]
    · rcases List.mem_cons.1 h with h | h
      · exact absurd h.symm ha
      · simp only [List.map, alookup, ha, if_false]
        exact ih h

/-- The fallback rule exactly as the claim words it: the first snippet
found for any topic scanned in the fixed priority order. -/
def firstSnippetFound (itopics : List String)
    (snippets : List (String × List String)) : Option String :=
  match itopics with
  | [] => none
  | t :: rest =>
    match ((alookup snippets t).getD []).head? with
    | some s => some s
    | none => firstSnippetFound rest snippets

/-- The snippet the claim prescribes for a topic: the first snippet
stored for that topic when one exists; otherwise the first snippet found
for any topic scanned in the fixed priority order; otherwise the empty
string. -/
def claimSnippet (itopics : List String) (snippets : List (String × List String))
    (t : String) : String :=
  match ((alookup snippets t).getD []).head? with
  | some s => s
  | none => (firstSnippetFound itopics snippets).getD ""

/-- Counterexample to C6 as stated: with priority order `["a", "b"]` and
snippets `{"a": [], "b": ["hello"]}`, topic `a` has no snippet, and the
first snippet found scanning the priority order is `"hello"`; but the
code's general-snippet scan stops (`break`) at the first topic *present*
in the mapping — here `a`, with an empty list — so the code reshapes
`a`'s snippet to the empty string, not `"hello"`. -/
theorem snippet_reshaping_counterexample :
    alookup (reshape_snippets ["a", "b"] [("a", []), ("b", ["hello"])]) "a" =
      some "" ∧
    claimSnippet ["a", "b"] [("a", []), ("b", ["hello"])] "a" = "hello" ∧
    ("" : String) ≠ "hello" := by decide

/-- C6 (amended): for every snippets mapping and topic in the fixed
internal topic list, the reshaped snippet is the whitespace-stripped
first stored snippet for that topic when that first snippet exists and
is non-empty; otherwise it is the general snippet, which is determined
by the *first topic present* in the mapping in the fixed priority order
— that topic's first snippet, or the empty string when its list is
empty or no topic is present; later topics are not scanned once a
present topic is found.  This is performed independently per language
(`snippets` → `ja_snippets`, `snippets_en` → `en_snippets`). -/
theorem snippet_reshaping_characterization :
    (∀ (k : Constants) (doc : Document),
      (document_ k doc).ja_snippets = reshape_snippets k.ITOPICS doc.snippets ∧
      (document_ k doc).en_snippets = reshape_snippets k.ITOPICS doc.snippets_en) ∧
    (∀ (itopics : List String) (snippets : List (String × List String))
      (t : String), t ∈ itopics →
      ∃ r, alookup (reshape_snippets itopics snippets) t = some r ∧
        (∀ s0 tl, alookup snippets t = some (s0 :: tl) → s0 ≠ "" →
          r = pyStrip s0) ∧
        (alookup snippets t = none → r = general_snippet itopics snippets) ∧
        (alookup snippets t = some [] → r = general_snippet itopics snippets) ∧
        (∀ tl, alookup snippets t = some ("" :: tl) →
          r = general_snippet itopics snippets)) ∧
    (∀ (t : String) (ts : List String) (snippets : List (String × List String))
      (l : List String), alookup snippets t = some l →
      general_snippet (t :: ts) snippets = l.headD "") ∧
    (∀ (t : String) (ts : List String) (snippets : List (String × List String)),
      alookup snippets t = none →
      general_snippet (t :: ts) snippets = general_snippet ts snippets) := by
  refine ⟨fun k doc => ⟨rfl, rfl⟩, ?_, ?_, ?_⟩
  · intro itopics snippets t ht
    refine ⟨snippet_for itopics snippets t,
      alookup_map_self (snippet_for itopics snippets) itopics t ht, ?_, ?_, ?_, ?_⟩
    · intro s0 tl hl hne
      simp [snippet_for, hl, hne]
    · intro hl
      by_cases hg : general_snippet itopics snippets = "" <;>
        simp [snippet_for, hl, hg]
    · intro hl
      by_cases hg : general_snippet itopics snippets = "" <;>
        simp [snippet_for, hl, hg]
    · intro tl hl
      by_cases hg : general_snippet itopics snippets = "" <;>
        simp [snippet_for, hl, hg]
  · intro t ts snippets l hl
    simp [general_snippet, hl]
  · intro t ts snippets hl
    simp [general_snippet, hl]

/-- Witness for C6 (amended): for priority order `["a", "b"]` and
snippets `{"b": [" s "]}`, topic `a` is absent from the mapping, so its
reshaped snippet is the general snippet. -/
theorem snippet_reshaping_characterization_witness :
    ∃ r, alookup (reshape_snippets ["a", "b"] [("b", [" s "])]) "a" = some r ∧
      (∀ s0 tl, alookup [("b", [" s "])] "a" = some (s0 :: tl) → s0 ≠ "" →
        r = pyStrip s0) ∧
      (alookup [("b", [" s "])] "a" = none →
        r = general_snippet ["a", "b"] [("b", [" s "])]) ∧
      (alookup [("b", [" s "])] "a" = some [] →
        r = general_snippet ["a", "b"] [("b", [" s "])]) ∧
      (∀ tl, alookup [("b", [" s "])] "a" = some ("" :: tl) →
        r = general_snippet ["a", "b"] [("b", [" s "])]) :=
  snippet_reshaping_characterization.2.1 ["a", "b"] [("b", [" s "])] "a"
    (by decide)

/-! ### Dictionary lemmas for `update_page` -/

theorem mem_dictUpsert {β : Type} {d : List (String × β)} {k : String} {v : β}
    {kv : String × β} (h : kv ∈ dictUpsert d k v) : kv ∈ d ∨ kv = (k, v) := by
  induction d with
  | nil => simpa [dictUpsert] using h
  | cons a rest ih =>
    by_cases ha : a.1 = k
    · simp only [dictUpsert, ha, if_true] at h
      rcases List.mem_cons.1 h with h | h
      · exact Or.inr h
      · exact Or.inl (List.mem_cons_of_mem a h)
    · simp only [dictUpsert, ha, if_false] at h
      rcases List.mem_cons.1 h with h | h
      · exact Or.inl (h ▸ List.mem_cons_self a rest)
      · rcases ih h with h | h
        · exact Or.inl (List.mem_cons_of_mem a h)
        · exact Or.inr h

theorem keys_dictUpsert {β : Type} (d : List (String × β)) (k : String) (v : β)
    (x : String) :
    (x ∈ (dictUpsert d k v).map Prod.fst) ↔ (x ∈ d.map Prod.fst ∨ x = k) := by
  induction d with
  | nil => simp [dictUpsert]
  | cons a rest ih =>
    by_cases ha : a.1 = k
    · simp only [dictUpsert, ha, if_true, List.map, List.mem_cons]
      constructor
      · intro h
        rcases h with h | h
        · exact Or.inr h
        · exact Or.inl (Or.inr h)
      · intro h
        rcases h with (h | h) | h
        · exact Or.inl (ha ▸ h)
        · exact Or.inr h
        · exact Or.inl h
    · simp only [dictUpsert, ha, if_false, List.map, List.mem_cons, ih]
      tauto

theorem nodup_keys_dictUpsert {β : Type} (d : List (String × β)) (k : String)
    (v : β) (h : (d.map Prod.fst).Nodup) :
    ((dictUpsert d k v).map Prod.fst).Nodup := by
  induction d with
  | nil => simp [dictUpsert]
  | cons a rest ih =>
    rw [List.map, List.nodup_cons] at h
    by_cases ha : a.1 = k
    · simp only [dictUpsert, ha, if_true, List.map, List.nodup_cons]
      exact ⟨ha ▸ h.1, h.2⟩
    · simp only [dictUpsert, ha, if_false, List.map, List.nodup_cons]
      refine ⟨?_, ih h.2⟩
      rw [keys_dictUpsert]
      rintro (hh | hh)
      · exact h.1 hh
      · exact ha hh

theorem dictOfList_foldl_pred {β : Type} (P : String × β → Prop) :
    ∀ (l acc : List (String × β)), (∀ kv ∈ acc, P kv) → (∀ kv ∈ l, P kv) →
      ∀ kv ∈ l.foldl (fun d kv => dictUpsert d kv.1 kv.2) acc, P kv := by
  intro l
  induction l with
  | nil => intro acc hacc _ kv hkv; exact hacc kv hkv
  | cons a rest ih =>
    intro acc hacc hl kv hkv
    refine ih (dictUpsert acc a.1 a.2) ?_ (fun x hx => hl x (List.mem_cons_of_mem a hx))
      kv hkv
    intro x hx
    rcases mem_dictUpsert hx with hx | hx
    · exact hacc x hx
    · exact hx ▸ hl a (List.mem_cons_self a rest)

theorem dictOfList_values {β : Type} (l : List (String × β)) (v : β)
    (hl : ∀ kv ∈ l, kv.2 = v) : ∀ kv ∈ dictOfList l, kv.2 = v :=
  dictOfList_foldl_pred (fun kv => kv.2 = v) l [] (by simp) hl

theorem keys_dictOfList_foldl {β : Type} :
    ∀ (l acc : List (String × β)) (x : String),
      (x ∈ (l.foldl (fun d kv => dictUpsert d kv.1 kv.2) acc).map Prod.fst) ↔
        (x ∈ acc.map Prod.fst ∨ x ∈ l.map Prod.fst) := by
  intro l
  induction l with
  | nil => simp
  | cons a rest ih =>
    intro acc x
    rw [List.foldl, ih, keys_dictUpsert, List.map, List.mem_cons]
    tauto

theorem keys_dictOfList {β : Type} (l : List (String × β)) (x : String) :
    (x ∈ (dictOfList l).map Prod.fst) ↔ x ∈ l.map Prod.fst := by
  rw [dictOfList, keys_dictOfList_foldl]
  simp

theorem nodup_keys_dictOfList_foldl {β : Type} :
    ∀ (l acc : List (String × β)), (acc.map Prod.fst).Nodup →
      ((l.foldl (fun d kv => dictUpsert d kv.1 kv.2) acc).map Prod.fst).Nodup := by
  intro l
  induction l with
  | nil => intro acc h; exact h
  | cons a rest ih =>
    intro acc h
    exact ih (dictUpsert acc a.1 a.2) (nodup_keys_dictUpsert acc a.1 a.2 h)

theorem nodup_keys_dictOfList {β : Type} (l : List (String × β)) :
    ((dictOfList l).map Prod.fst).Nodup :=
  nodup_keys_dictOfList_foldl l [] List.nodup_nil

/-! ### `setCorrectionFirst` lemmas -/

theorem findPage_setCorrectionFirst_none {c : Collection} {url : String}
    (covid useful rumor : Int) (icountry : String) (nt : List (String × ℚ))
    (hf : findPage c url = none) :
    findPage (setCorrectionFirst url covid useful rumor icountry nt c) url =
      some (applyCorrection covid useful rumor icountry nt (blankPage url)) := by
  induction c with
  | nil => simp [setCorrectionFirst, findPage, applyCorrection, blankPage]
  | cons q rest ih =>
    by_cases hq : q.url = url
    · simp [findPage, hq] at hf
    · simp only [findPage, hq, if_false] at hf
      simp only [setCorrectionFirst, hq, if_false, findPage]
      exact ih hf

theorem findPage_setCorrectionFirst_some {c : Collection} {url : String} {ex : Page}
    (covid useful rumor : Int) (icountry : String) (nt : List (String × ℚ))
    (hf : findPage c url = some ex) :
    findPage (setCorrectionFirst url covid useful rumor icountry nt c) url =
      some (applyCorrection covid useful rumor icountry nt ex) := by
  induction c with
  | nil => simp [findPage] at hf
  | cons q rest ih =>
    by_cases hq : q.url = url
    · simp only [findPage, hq, if_true, Option.some.injEq] at hf
      subst hf
      simp [setCorrectionFirst, hq, findPage, applyCorrection]
    · simp only [findPage, hq, if_false] at hf
      simp only [setCorrectionFirst, hq, if_false, findPage]
      exact ih hf

/-! ### C4: correction round-trip -/

/-- C4: `update_page(url, flags, country, external topics, note)` leaves
the stored page with `is_checked` true (1), `displayed_country` equal to
the supplied country, and topics exactly the supplied external topic
list mapped to first internal topics, each with relevance 1.0 (duplicate
first-internal-topics collapse into the single dictionary key); the page
is created when missing; exactly one record matching the applied change
(including the timestamp) is appended to the audit log, and that record
is returned. -/
theorem update_page_correction (k : Constants) (url : String)
    (covid useful rumor : Bool) (icountry : String) (etopics : List String)
    (notes : String) (c : Collection) (log : List Updated) (now : String)
    (heads : List String) (hm : firstItopics k etopics = some heads) :
    ∃ c2 log2 u, update_page k url covid useful rumor icountry etopics notes
        c log now = some (c2, log2, u) ∧
      log2 = log ++ [u] ∧
      u = { url := url
            is_about_covid19 := if covid then 1 else 0
            is_useful := if useful then 1 else 0
            is_about_false_rumor := if rumor then 1 else 0
            new_country := icountry
            new_topics :=
              (dictOfList (heads.map (fun h => (h, (1 : ℚ))))).map Prod.fst
            notes := notes
            time := now } ∧
      ∃ p, findPage c2 url = some p ∧
        p.is_checked = 1 ∧
        p.displayed_country = icountry ∧
        p.topics = dictOfList (heads.map (fun h => (h, (1 : ℚ)))) ∧
        (∀ kv ∈ p.topics, kv.2 = 1) ∧
        (∀ t, t ∈ p.topics.map Prod.fst ↔ t ∈ heads) ∧
        (p.topics.map Prod.fst).Nodup ∧
        p.topics.map Prod.fst = u.new_topics := by
  have hvals : ∀ kv ∈ dictOfList (heads.map (fun h => (h, (1 : ℚ)))), kv.2 = 1 :=
    dictOfList_values _ 1 (by simp)
  have hkeys : ∀ t, t ∈ (dictOfList (heads.map (fun h => (h, (1 : ℚ))))).map Prod.fst
      ↔ t ∈ heads := by
    intro t
    rw [keys_dictOfList]
    simp
  simp only [update_page, hm]
  refine ⟨_, _, _, rfl, rfl, rfl, ?_⟩
  cases hf : findPage c url with
  | none =>
    exact ⟨_, findPage_setCorrectionFirst_none _ _ _ _ _ hf, rfl, rfl, rfl, hvals,
      hkeys, nodup_keys_dictOfList _, rfl⟩
  | some ex =>
    exact ⟨_, findPage_setCorrectionFirst_some _ _ _ _ _ hf, rfl, rfl, rfl, hvals,
      hkeys, nodup_keys_dictOfList _, rfl⟩

/-- Witness for C4: correcting a missing url with one external topic
creates the page checked, with the supplied country and the mapped topic
at relevance 1, and appends exactly the returned record to the log. -/
theorem update_page_correction_witness :
    ∃ c2 log2 u, update_page sampleK "http://x/9" true false true "us" ["etA"]
        "note" [] [] "2021-01-01T00:00:00" = some (c2, log2, u) ∧
      log2 = [] ++ [u] ∧
      u = { url := "http://x/9"
            is_about_covid19 := if true then 1 else 0
            is_useful := if false then 1 else 0
            is_about_false_rumor := if true then 1 else 0
            new_country := "us"
            new_topics :=
              (dictOfList (["topicA"].map (fun h => (h, (1 : ℚ))))).map Prod.fst
            notes := "note"
            time := "2021-01-01T00:00:00" } ∧
      ∃ p, findPage c2 "http://x/9" = some p ∧
        p.is_checked = 1 ∧
        p.displayed_country = "us" ∧
        p.topics = dictOfList (["topicA"].map (fun h => (h, (1 : ℚ)))) ∧
        (∀ kv ∈ p.topics, kv.2 = 1) ∧
        (∀ t, t ∈ p.topics.map Prod.fst ↔ t ∈ ["topicA"]) ∧
        (p.topics.map Prod.fst).Nodup ∧
        p.topics.map Prod.fst = u.new_topics :=
  update_page_correction sampleK "http://x/9" true false true "us" ["etA"] "note"
    [] [] "2021-01-01T00:00:00" ["topicA"] (by decide)

/-! ### C8: `classes` dispatch -/

/-- An Elasticsearch stub returning no hits, for concrete instances. -/
def esNil : EsQuery → List String := fun _ => []

/-- C8: `classes` delegates to full-text search when the topic selector
is the sentinel `search`; otherwise it translates the external
topic/country codes via the static maps and branches on which selectors
are non-empty: both supplied yields a single filtered/sorted page list,
topic only yields a map from each country to a page list, and neither
yields a nested topic-to-country map, with the `all` sentinel topic and
country excluded from iteration. -/
theorem classes_dispatch (es : EsQuery → List String) (k : Constants)
    (c : Collection) (etopic ecountry : String) (start limit : Nat) (lang : Lang)
    (query : String) :
    (etopic = "search" →
      classes es k c etopic ecountry start limit lang query =
        search es k c ecountry start limit lang query) ∧
    (etopic ≠ "search" →
      (etopicTranslated k etopic ≠ "" → ecountryTranslated k ecountry ≠ "" →
        classes es k c etopic ecountry start limit lang query =
          .pages (get_pages k
            ((alookup k.ETOPIC_ITOPICS_MAP (etopicTranslated k etopic)).getD [])
            ((alookup k.ECOUNTRY_ICOUNTRIES_MAP
              (ecountryTranslated k ecountry)).getD [])
            start limit lang c)) ∧
      (etopicTranslated k etopic ≠ "" → ecountryTranslated k ecountry = "" →
        classes es k c etopic ecountry start limit lang query =
          .byKey ((k.ECOUNTRY_ICOUNTRIES_MAP.filter (fun kv => kv.1 != "all")).map
            (fun kv => (kv.1, get_pages k
              ((alookup k.ETOPIC_ITOPICS_MAP (etopicTranslated k etopic)).getD [])
              kv.2 start limit lang c)))) ∧
      (etopicTranslated k etopic = "" → ecountryTranslated k ecountry = "" →
        classes es k c etopic ecountry start limit lang query =
          .nested ((k.ETOPIC_ITOPICS_MAP.filter (fun kv => kv.1 != "all")).map
            (fun tkv => (tkv.1,
              (k.ECOUNTRY_ICOUNTRIES_MAP.filter (fun kv => kv.1 != "all")).map
                (fun ckv => (ckv.1, get_pages k tkv.2 ckv.2 start limit lang c)))))))
    := by
  refine ⟨?_, ?_⟩
  · intro h
    simp [classes, h]
  · intro hne
    refine ⟨?_, ?_, ?_⟩
    · intro h1 h2
      simp [classes, hne, h1, h2]
    · intro h1 h2
      simp [classes, hne, h1, h2]
    · intro h1 h2
      simp [classes, hne, h1]

/-- Witness for C8: the four dispatch shapes at concrete arguments. -/
theorem classes_dispatch_witness :
    (classes esNil sampleK [] "search" "us" 0 5 .ja "q" =
      search esNil sampleK [] "us" 0 5 .ja "q") ∧
    (classes esNil sampleK [] "etA" "us" 0 5 .ja "" =
      .pages (get_pages sampleK
        ((alookup sampleK.ETOPIC_ITOPICS_MAP (etopicTranslated sampleK "etA")).getD
          [])
        ((alookup sampleK.ECOUNTRY_ICOUNTRIES_MAP
          (ecountryTranslated sampleK "us")).getD [])
        0 5 .ja [])) ∧
    (classes esNil sampleK [] "etA" "" 0 5 .ja "" =
      .byKey ((sampleK.ECOUNTRY_ICOUNTRIES_MAP.filter
          (fun kv => kv.1 != "all")).map
        (fun kv => (kv.1, get_pages sampleK
          ((alookup sampleK.ETOPIC_ITOPICS_MAP
            (etopicTranslated sampleK "etA")).getD [])
          kv.2 0 5 .ja [])))) ∧
    (classes esNil sampleK [] "" "" 0 5 .ja "" =
      .nested ((sampleK.ETOPIC_ITOPICS_MAP.filter (fun kv => kv.1 != "all")).map
        (fun tkv => (tkv.1,
          (sampleK.ECOUNTRY_ICOUNTRIES_MAP.filter (fun kv => kv.1 != "all")).map
            (fun ckv => (ckv.1, get_pages sampleK tkv.2 ckv.2 0 5 .ja [])))))) :=
  ⟨(classes_dispatch esNil sampleK [] "search" "us" 0 5 .ja "q").1 rfl,
   ((classes_dispatch esNil sampleK [] "etA" "us" 0 5 .ja "").2
      (by decide)).1 (by decide) (by decide),
   ((classes_dispatch esNil sampleK [] "etA" "" 0 5 .ja "").2
      (by decide)).2.1 (by decide) (by decide),
   ((classes_dispatch esNil sampleK [] "" "" 0 5 .ja "").2
      (by decide)).2.2 (by decide) (by decide)⟩

/-! ### C9: unknown external codes widen the result -/

/-- C9: in `classes` (and `countries`) with both selectors supplied, an
external topic (country) code absent from the taxonomy map yields an
empty internal code list; `get_filter` then omits the corresponding
clause entirely, so the result is the pandemic-filtered page list
unrestricted across topics (countries) — not an empty list and not an
error.  The two `matchesFilter` equations exhibit the omitted clause:
with no topics the filter is only the pandemic check plus the country
membership, and with no countries only the pandemic check plus the
topic-presence disjunction. -/
theorem unknown_code_widening (es : EsQuery → List String) (k : Constants)
    (c : Collection) (etopic ecountry : String) (start limit : Nat) (lang : Lang)
    (query : String) :
    (etopic ≠ "search" →
      etopicTranslated k etopic ≠ "" → ecountryTranslated k ecountry ≠ "" →
      alookup k.ETOPIC_ITOPICS_MAP (etopicTranslated k etopic) = none →
      classes es k c etopic ecountry start limit lang query =
        .pages (get_pages k []
          ((alookup k.ECOUNTRY_ICOUNTRIES_MAP
            (ecountryTranslated k ecountry)).getD [])
          start limit lang c)) ∧
    (∀ (ics : List String) (p : Page),
      matchesFilter (get_filter [] ics) p =
        (decide (p.is_about_covid19 = 1) &&
          (ics.isEmpty || ics.contains p.displayed_country))) ∧
    (ecountryTranslated k ecountry ≠ "" → etopicTranslated k etopic ≠ "" →
      alookup k.ECOUNTRY_ICOUNTRIES_MAP (ecountryTranslated k ecountry) = none →
      countries k c ecountry etopic start limit lang =
        .pages (get_pages k
          ((alookup k.ETOPIC_ITOPICS_MAP (etopicTranslated k etopic)).getD [])
          [] start limit lang c)) ∧
    (∀ (its : List String) (p : Page),
      matchesFilter (get_filter its []) p =
        (decide (p.is_about_covid19 = 1) &&
          (its.isEmpty || its.any (fun t => (alookup p.topics t).isSome)))) := by
  refine ⟨?_, ?_, ?_, ?_⟩
  · intro hne h1 h2 hm
    simp [classes, hne, h1, h2, hm]
  · intro ics p
    cases ics <;> simp [get_filter, matchesFilter, matchesClause]
  · intro h1 h2 hm
    simp [countries, h1, h2, hm]
  · intro its p
    cases its <;> simp [get_filter, matchesFilter, matchesClause]

/-- Witness for C9: the unknown topic code `zz` (and unknown country
code `qq`) produce the widened, unrestricted result shapes, and the
filter equations hold on a concrete stored page. -/
theorem unknown_code_widening_witness :
    (classes esNil sampleK [samplePage] "zz" "us" 0 5 .ja "" =
      .pages (get_pages sampleK []
        ((alookup sampleK.ECOUNTRY_ICOUNTRIES_MAP
          (ecountryTranslated sampleK "us")).getD [])
        0 5 .ja [samplePage])) ∧
    (matchesFilter (get_filter [] ["us"]) samplePage =
      (decide (samplePage.is_about_covid19 = 1) &&
        (["us"].isEmpty || ["us"].contains samplePage.displayed_country))) ∧
    (countries sampleK [samplePage] "qq" "etA" 0 5 .ja =
      .pages (get_pages sampleK
        ((alookup sampleK.ETOPIC_ITOPICS_MAP (etopicTranslated sampleK "etA")).getD
          [])
        [] 0 5 .ja [samplePage])) ∧
    (matchesFilter (get_filter ["topicA"] []) samplePage =
      (decide (samplePage.is_about_covid19 = 1) &&
        (["topicA"].isEmpty ||
          ["topicA"].any (fun t => (alookup samplePage.topics t).isSome)))) :=
  ⟨(unknown_code_widening esNil sampleK [samplePage] "zz" "us" 0 5 .ja "").1
      (by decide) (by decide) (by decide) (by decide),
   (unknown_code_widening esNil sampleK [samplePage] "zz" "us" 0 5 .ja "").2.1
      ["us"] samplePage,
   (unknown_code_widening esNil sampleK [samplePage] "zz" "qq" 0 5 .ja "").2.2.1
      (by decide) (by decide) (by decide),
   (unknown_code_widening esNil sampleK [samplePage] "zz" "qq" 0 5 .ja "").2.2.2
      ["topicA"] samplePage⟩

end DB
